import Mathlib

/-!
Shallow embedding of the snowflake-id generator library (Rust), for checking
its specification.  The bit layout follows trait `Snowflake` in
src/snowflake.rs together with its implementation for `SnowflakeId` in
src/lib.rs; the generator state machine follows
`SnowflakeGenerator::try_next_id` in src/generator.rs (the cooperative
wrapper in src/async_generator.rs runs the textually identical step); the
blocking bulk path follows `SnowflakeGenerator::next_id_bulk`.  Machine
integers are modelled as `Nat` (u64, with explicit `% 2 ^ 64` where the
source may wrap) and `Int` (i64; every i64 quantity the claims touch stays
far from the i64 boundary).  The module src/defs.rs is not among the source
files; the constants it provides (`CLOCK_BACKWARDS_TOLERANCE_MS`, the
default epoch and the three concrete bit widths) are therefore kept as
parameters of the model, so each theorem holds for every choice of them.
Wall-clock readings (`Utc::now().timestamp_millis()`) are modelled by an
explicit stream `clock : Nat → Int` consumed one reading per call, and the
retry loops of `next_id` / `next_id_bulk` take explicit fuel; a `none`
result stands for a panic (process abort) or an exhausted fuel budget.
-/

namespace SnowflakeSpec

/-- Bit-layout capability set: the three field widths a concrete id type
supplies (trait `Snowflake`, src/snowflake.rs); all other layout data is
derived from them exactly as the trait's default methods do. -/
structure Layout where
  timestamp_bits : Nat
  machine_id_bits : Nat
  sequence_bits : Nat

namespace Layout

/-- Mirrors `Snowflake::timestamp_shift` (src/snowflake.rs line 52). -/
def timestamp_shift (L : Layout) : Nat := L.machine_id_bits + L.sequence_bits

/-- Mirrors `Snowflake::timestamp_mask` (src/snowflake.rs line 30). -/
def timestamp_mask (L : Layout) : Nat := (1 <<< L.timestamp_bits) - 1

/-- Mirrors `Snowflake::machine_id_mask` (src/snowflake.rs line 34). -/
def machine_id_mask (L : Layout) : Nat := (1 <<< L.machine_id_bits) - 1

/-- Mirrors `Snowflake::sequence_mask` (src/snowflake.rs line 38). -/
def sequence_mask (L : Layout) : Nat := (1 <<< L.sequence_bits) - 1

/-- Mirrors `Snowflake::valid_mask` (src/snowflake.rs line 42). -/
def valid_mask (L : Layout) : Nat :=
  (L.timestamp_mask <<< L.timestamp_shift) ||| (L.machine_id_mask <<< L.sequence_bits) |||
    L.sequence_mask

/-- Mirrors `Snowflake::max_timestamp` (src/snowflake.rs line 56): the
timestamp mask reinterpreted as i64. -/
def max_timestamp (L : Layout) : Int := (L.timestamp_mask : Int)

/-- Mirrors `Snowflake::max_machine_id` (src/snowflake.rs line 60). -/
def max_machine_id (L : Layout) : Nat := L.machine_id_mask

/-- Mirrors `Snowflake::max_sequence` (src/snowflake.rs line 64). -/
def max_sequence (L : Layout) : Nat := L.sequence_mask

/-- Mirrors `SnowflakeId::from_component_parts` (src/lib.rs lines 38-43):
two u64 left shifts (which discard bits shifted past bit 63, hence the
`% 2 ^ 64`) followed by bitwise or.  The u64 arguments are reduced
`% 2 ^ 64` to reflect their Rust type. -/
def from_component_parts (L : Layout) (timestamp_offset machine_id sequence : Nat) : Nat :=
  (((timestamp_offset % 2 ^ 64) <<< L.timestamp_shift) % 2 ^ 64) |||
    (((machine_id % 2 ^ 64) <<< L.sequence_bits) % 2 ^ 64) ||| (sequence % 2 ^ 64)

/-- Mirrors `Snowflake::timestamp` (src/snowflake.rs line 8); `id` is the
raw u64 value of the identifier. -/
def timestamp (L : Layout) (id : Nat) : Nat := (id >>> L.timestamp_shift) &&& L.timestamp_mask

/-- Mirrors `Snowflake::timestamp_with_epoch` (src/snowflake.rs line 12). -/
def timestamp_with_epoch (L : Layout) (id : Nat) (epoch : Int) : Int :=
  (L.timestamp id : Int) + epoch

/-- Mirrors `Snowflake::machine_id` (src/snowflake.rs line 16). -/
def machine_id (L : Layout) (id : Nat) : Nat := (id >>> L.sequence_bits) &&& L.machine_id_mask

/-- Mirrors `Snowflake::sequence` (src/snowflake.rs line 20). -/
def sequence (L : Layout) (id : Nat) : Nat := id &&& L.sequence_mask

/-- Mirrors `Snowflake::is_valid` (src/snowflake.rs line 26); the u64
complement `!valid_mask` is xor with the all-ones word. -/
def is_valid (L : Layout) (id : Nat) : Bool :=
  id &&& (L.valid_mask ^^^ (2 ^ 64 - 1)) == 0

end Layout

/-- Mirrors `SnowflakeError` (src/error.rs). -/
inductive SnowflakeError where
  | InvalidMachineId (id max : Nat)
  | ClockMovedBackwards
  | TimestampOverflow
  | GeneratorPoisoned
  | InvalidId (msg : String)
deriving DecidableEq

/-- Mirrors `SnowflakeOperation` (src/generator.rs lines 9-12); the
`Duration` payload is kept in milliseconds, matching the source's
`Duration::from_millis`. -/
inductive SnowflakeOperation where
  | Ready (id : Nat)
  | Pending (wait_ms : Nat)
deriving DecidableEq

/-- Mirrors `GeneratorState` (src/generator.rs lines 14-17). -/
structure GeneratorState where
  last_timestamp : Int
  sequence : Nat
deriving DecidableEq

/-- The immutable data of a generator: the bit layout of the id type
parameter, the `machine_id` and `epoch` fields of `SnowflakeGenerator`
(src/generator.rs lines 19-24), and the clock-regression tolerance
`CLOCK_BACKWARDS_TOLERANCE_MS` whose defining module src/defs.rs is not
among the source files and which is therefore a parameter here. -/
structure GenConfig where
  layout : Layout
  tolerance_ms : Int
  machine_id : Nat
  epoch : Int

/-- Tail of one `try_next_id` step after `state.last_timestamp` has been
committed (src/generator.rs lines 93-107): the overflow check on
`timestamp_offset` and, on success, the defensive mask and the packing of
the id.  `st` is the already-updated state; it is returned unchanged even
on the error path, exactly as the mutated state persists behind the mutex
in the source. -/
def commit_step (g : GenConfig) (st : GeneratorState) :
    Except SnowflakeError SnowflakeOperation × GeneratorState :=
  let timestamp_offset := st.last_timestamp - g.epoch
  if timestamp_offset < 0 ∨ timestamp_offset > g.layout.max_timestamp then
    (Except.error SnowflakeError.TimestampOverflow, st)
  else
    let masked_timestamp := timestamp_offset.toNat &&& ((1 <<< g.layout.timestamp_bits) - 1)
    (Except.ok (SnowflakeOperation.Ready
      (g.layout.from_component_parts masked_timestamp g.machine_id st.sequence)), st)

/-- One step of `SnowflakeGenerator::try_next_id` (src/generator.rs lines
64-107), with the sampled wall-clock reading made an explicit argument
`timestamp` and the post-call mutex contents returned alongside the result.
The lock acquisition itself (whose only failure mode, poisoning, is a
concurrency artefact) is outside the model. -/
def try_next_id (g : GenConfig) (st : GeneratorState) (timestamp : Int) :
    Except SnowflakeError SnowflakeOperation × GeneratorState :=
  if timestamp < st.last_timestamp then
    let drift := st.last_timestamp - timestamp
    if drift ≤ g.tolerance_ms then
      (Except.ok (SnowflakeOperation.Pending drift.toNat), st)
    else
      (Except.error SnowflakeError.ClockMovedBackwards, st)
  else if timestamp = st.last_timestamp then
    let next_seq := (st.sequence + 1) &&& g.layout.max_sequence
    if next_seq = 0 then (Except.ok (SnowflakeOperation.Pending 1), st)
    else commit_step g { last_timestamp := timestamp, sequence := next_seq }
  else
    commit_step g { last_timestamp := timestamp, sequence := 0 }

/-- The retry loop of `SnowflakeGenerator::next_id` (src/generator.rs lines
109-118) and, identically, `AsyncSnowflakeGenerator::next_id`
(src/async_generator.rs lines 92-101): loop on `try_next_id`, backing off
on `Pending`.  The `expect` on a fatal error is a panic, modelled as
`none`; `fuel` bounds the number of loop iterations, `i` is the clock
stream position.  Returns the id, the state after the call and the new
clock position. -/
def next_id (g : GenConfig) (clock : Nat → Int) :
    Nat → Nat → GeneratorState → Option (Nat × GeneratorState × Nat)
  | 0, _, _ => none
  | fuel + 1, i, st =>
    match try_next_id g st (clock i) with
    | (Except.ok (SnowflakeOperation.Ready id), st1) => some (id, st1, i + 1)
    | (Except.ok (SnowflakeOperation.Pending _), st1) => next_id g clock fuel (i + 1) st1
    | (Except.error _, _) => none

/-- A sequence of `try_next_id` calls on one generator instance, one call
per clock reading in the list; returns the outcomes in call order and the
final state. -/
def run_try_next (g : GenConfig) :
    GeneratorState → List Int →
      List (Except SnowflakeError SnowflakeOperation) × GeneratorState
  | st, [] => ([], st)
  | st, t :: ts =>
    let step := try_next_id g st t
    let rest := run_try_next g step.2 ts
    (step.1 :: rest.1, rest.2)

/-- The ids of the completed (`Ready`) calls of a run, in issuance order. -/
def ready_ids (rs : List (Except SnowflakeError SnowflakeOperation)) : List Nat :=
  rs.filterMap fun r =>
    match r with
    | Except.ok (SnowflakeOperation.Ready id) => some id
    | _ => none

/-- The inner busy-wait of the bulk path for a backwards clock
(src/generator.rs lines 145-148): re-read the clock while it is behind
`last`.  `fuel` bounds the iterations; on success returns the first reading
not below `last` and the clock position after it. -/
def wait_lt (clock : Nat → Int) (last : Int) :
    Nat → Nat → Int → Option (Int × Nat)
  | 0, i, t => if t < last then none else some (t, i)
  | fuel + 1, i, t => if t < last then wait_lt clock last fuel (i + 1) (clock i) else some (t, i)

/-- The inner busy-wait of the bulk path for sequence exhaustion
(src/generator.rs lines 158-161): re-read the clock while it has not
advanced past `last`. -/
def wait_le (clock : Nat → Int) (last : Int) :
    Nat → Nat → Int → Option (Int × Nat)
  | 0, i, t => if t ≤ last then none else some (t, i)
  | fuel + 1, i, t => if t ≤ last then wait_le clock last fuel (i + 1) (clock i) else some (t, i)

/-- Tail of one bulk-loop iteration after the new state is fixed
(src/generator.rs lines 167-183): commit `last_timestamp`, check the
offset, mask it and push the packed id.  The `panic!` on overflow is
modelled as `none`. -/
def bulk_commit (g : GenConfig) (st : GeneratorState) (i : Nat) :
    Option (Nat × GeneratorState × Nat) :=
  let timestamp_offset := st.last_timestamp - g.epoch
  if timestamp_offset < 0 ∨ timestamp_offset > g.layout.max_timestamp then none
  else
    let masked_timestamp := timestamp_offset.toNat &&& ((1 <<< g.layout.timestamp_bits) - 1)
    some (g.layout.from_component_parts masked_timestamp g.machine_id st.sequence, st, i)

/-- Rest of one bulk-loop iteration once the backwards-clock handling has
produced a reading `t1` not below `state.last_timestamp` (src/generator.rs
lines 155-183): advance or reset the sequence, busy-wait through sequence
exhaustion, then commit and pack. -/
def bulk_iter_tail (g : GenConfig) (clock : Nat → Int) (fuel : Nat)
    (st : GeneratorState) (t1 : Int) (i1 : Nat) : Option (Nat × GeneratorState × Nat) :=
  if t1 = st.last_timestamp then
    let seq1 := (st.sequence + 1) &&& g.layout.max_sequence
    if seq1 = 0 then
      match wait_le clock st.last_timestamp fuel i1 t1 with
      | none => none
      | some (t2, i2) => bulk_commit g { last_timestamp := t2, sequence := 0 } i2
    else bulk_commit g { last_timestamp := t1, sequence := seq1 } i1
  else bulk_commit g { last_timestamp := t1, sequence := 0 } i1

/-- One iteration of the `for` loop of `SnowflakeGenerator::next_id_bulk`
(src/generator.rs lines 137-184), run while the single batch-wide lock is
held: sample the clock, busy-wait through tolerable backwards drift
(`panic!`, i.e. `none`, beyond tolerance), then run `bulk_iter_tail`. -/
def bulk_iter (g : GenConfig) (clock : Nat → Int) (fuel : Nat)
    (st : GeneratorState) (i : Nat) : Option (Nat × GeneratorState × Nat) :=
  let t0 := clock i
  let first :=
    if t0 < st.last_timestamp then
      if st.last_timestamp - t0 ≤ g.tolerance_ms then
        wait_lt clock st.last_timestamp fuel (i + 1) t0
      else none
    else some (t0, i + 1)
  match first with
  | none => none
  | some (t1, i1) => bulk_iter_tail g clock fuel st t1 i1

/-- `SnowflakeGenerator::next_id_bulk` (src/generator.rs lines 124-187):
`count` iterations of `bulk_iter` under one lock acquisition, collecting
the ids in order.  Any `panic!` inside an iteration aborts the whole call
(`none`), discarding the ids already produced — exactly as a process abort
does. -/
def next_id_bulk (g : GenConfig) (clock : Nat → Int) (fuel : Nat) :
    Nat → GeneratorState → Nat → Option (List Nat × GeneratorState × Nat)
  | 0, st, i => some ([], st, i)
  | count + 1, st, i =>
    match bulk_iter g clock fuel st i with
    | none => none
    | some (id, st1, i1) =>
      match next_id_bulk g clock fuel count st1 i1 with
      | none => none
      | some (ids, st2, i2) => some (id :: ids, st2, i2)

/-- `AsyncSnowflakeGenerator::next_id_bulk` (src/async_generator.rs lines
103-109): the cooperative wrapper reacquires the lock per element by just
calling the single-id path `count` times. -/
def next_id_bulk_async (g : GenConfig) (clock : Nat → Int) (fuel : Nat) :
    Nat → GeneratorState → Nat → Option (List Nat × GeneratorState × Nat)
  | 0, st, i => some ([], st, i)
  | count + 1, st, i =>
    match next_id g clock fuel i st with
    | none => none
    | some (id, st1, i1) =>
      match next_id_bulk_async g clock fuel count st1 i1 with
      | none => none
      | some (ids, st2, i2) => some (id :: ids, st2, i2)

/-- Strict ordering of the `(last_timestamp, sequence)` pairs the generator
consumes, lexicographic with the timestamp first. -/
def key_lt (s1 s2 : GeneratorState) : Prop :=
  s1.last_timestamp < s2.last_timestamp ∨
    (s1.last_timestamp = s2.last_timestamp ∧ s1.sequence < s2.sequence)

/-- A state whose committed timestamp offset passed the overflow check and
whose sequence is within its field. -/
def in_range (g : GenConfig) (st : GeneratorState) : Prop :=
  0 ≤ st.last_timestamp - g.epoch ∧ st.last_timestamp - g.epoch ≤ g.layout.max_timestamp ∧
    st.sequence ≤ g.layout.max_sequence

/-- The id the generator packs from a committed state (the masked offset,
the configured machine id and the committed sequence). -/
def id_of_state (g : GenConfig) (st : GeneratorState) : Nat :=
  g.layout.from_component_parts
    ((st.last_timestamp - g.epoch).toNat &&& ((1 <<< g.layout.timestamp_bits) - 1))
    g.machine_id st.sequence

/-- One decimal digit rendered as its character, as Rust's `Display` for
integers renders each digit (src/lib.rs lines 134-138 delegate to core
formatting). -/
def digit_to_char (d : Nat) : Char :=
  match d with
  | 0 => '0'
  | 1 => '1'
  | 2 => '2'
  | 3 => '3'
  | 4 => '4'
  | 5 => '5'
  | 6 => '6'
  | 7 => '7'
  | 8 => '8'
  | _ => '9'

/-- The numeric value of a least-significant-first decimal digit list. -/
def digits_value : List Nat → Nat
  | [] => 0
  | d :: ds => d + 10 * digits_value ds

/-- The decimal digits of `n`, least significant first; `fuel ≥ n` makes
the recursion structural while computing the exact digit list. -/
def dec_digits_rev (fuel : Nat) (n : Nat) : List Nat :=
  match fuel with
  | 0 => []
  | fuel + 1 => if n = 0 then [] else n % 10 :: dec_digits_rev fuel (n / 10)

/-- The decimal digit string of a natural number, most significant digit
first, no leading zeros, rendering 0 as the single digit 0 — the string
Rust's `Display` produces for a non-negative integer. -/
def dec_string (n : Nat) : List Char :=
  if n = 0 then ['0'] else ((dec_digits_rev n n).reverse).map digit_to_char

/-- Modelled from the spec: the textual form of an id, `write!` of the
inner i64 (src/lib.rs lines 134-138); the core-library integer formatting
it delegates to is outside the repository, and per the spec it renders
exactly the decimal digits of the value, with a leading minus sign only
for negative values. -/
def i64_display (v : Int) : List Char :=
  if v < 0 then '-' :: dec_string v.natAbs else dec_string v.toNat

/-- The numeric value of one decimal digit character, if it is one. -/
def digit_val (c : Char) : Option Nat :=
  if 48 ≤ c.toNat ∧ c.toNat ≤ 57 then some (c.toNat - 48) else none

/-- The value of a nonempty all-digit character list, most significant
digit first. -/
def parse_nat_digits (cs : List Char) : Option Nat :=
  if cs.isEmpty then none
  else
    cs.foldl
      (fun acc c =>
        match acc, digit_val c with
        | some a, some d => some (a * 10 + d)
        | _, _ => none)
      (some 0)

/-- Modelled from the spec: Rust's `str::parse::<i64>` used by `FromStr`
(src/lib.rs line 117); the core-library parser is outside the repository.
It accepts an optional sign followed by at least one decimal digit and
fails on any other character or on i64 overflow. -/
def parse_i64 (cs : List Char) : Option Int :=
  match cs with
  | [] => none
  | c :: rest =>
    if c = '-' then
      (parse_nat_digits rest).bind fun n =>
        if n ≤ 2 ^ 63 then some (-(n : Int)) else none
    else if c = '+' then
      (parse_nat_digits rest).bind fun n =>
        if n ≤ 2 ^ 63 - 1 then some (n : Int) else none
    else
      (parse_nat_digits cs).bind fun n =>
        if n ≤ 2 ^ 63 - 1 then some (n : Int) else none

/-- `FromStr for SnowflakeId` (src/lib.rs lines 112-128): parse an i64 —
a failure keeps the parse-error wording (the dynamic suffix interpolated
from the core error is elided) — then reject negative values with the
distinct negative-value wording.  The result carries the inner i64. -/
def from_str (cs : List Char) : Except SnowflakeError Int :=
  match parse_i64 cs with
  | none => Except.error (SnowflakeError.InvalidId "Failed to parse")
  | some value =>
    if value < 0 then Except.error (SnowflakeError.InvalidId "Snowflake ID cannot be negative")
    else Except.ok value

/-- `SnowflakeIdVisitor::visit_i64` (src/lib.rs lines 191-200). -/
def visit_i64 (value : Int) : Except String Int :=
  if value < 0 then Except.error "snowflake id cannot be negative" else Except.ok value

/-- `SnowflakeIdVisitor::visit_u64` (src/lib.rs lines 181-189). -/
def visit_u64 (value : Nat) : Except String Int :=
  if value > 2 ^ 63 - 1 then Except.error "snowflake id value exceeds i64::MAX"
  else Except.ok (value : Int)

/-- `SnowflakeIdVisitor::visit_str` (src/lib.rs lines 202-213): parse an
i64 (distinct message on failure), then reject negative values. -/
def visit_str (cs : List Char) : Except String Int :=
  match parse_i64 cs with
  | none => Except.error "invalid snowflake id string"
  | some parsed =>
    if parsed < 0 then Except.error "snowflake id cannot be negative"
    else Except.ok parsed

/-! Theorems.  First the bit-layout arithmetic shared by several claims. -/

theorem timestamp_mask_eq (L : Layout) : L.timestamp_mask = 2 ^ L.timestamp_bits - 1 := by
  rw [Layout.timestamp_mask, Nat.shiftLeft_eq, one_mul]

theorem machine_id_mask_eq (L : Layout) : L.machine_id_mask = 2 ^ L.machine_id_bits - 1 := by
  rw [Layout.machine_id_mask, Nat.shiftLeft_eq, one_mul]

theorem sequence_mask_eq (L : Layout) : L.sequence_mask = 2 ^ L.sequence_bits - 1 := by
  rw [Layout.sequence_mask, Nat.shiftLeft_eq, one_mul]

theorem max_sequence_eq (L : Layout) : L.max_sequence = 2 ^ L.sequence_bits - 1 := by
  rw [Layout.max_sequence, sequence_mask_eq]

theorem lor_two_pow_mul_eq_add (n a b : Nat) (hb : b < 2 ^ n) :
    2 ^ n * a ||| b = 2 ^ n * a + b := by
  apply Nat.eq_of_testBit_eq
  intro i
  rw [Nat.testBit_lor, Nat.testBit_to_div_mod, Nat.testBit_to_div_mod, Nat.testBit_to_div_mod]
  rcases Nat.lt_or_ge i n with hi | hi
  · have hpow : (2 : Nat) ^ i * (2 ^ (n - i - 1) * 2) = 2 ^ n := by
      rw [← pow_succ, ← pow_add]
      congr 1
      omega
    have e1 : 2 ^ n * a + b = b + 2 ^ i * (2 ^ (n - i - 1) * 2 * a) := by
      rw [← hpow]; ring
    have e2 : (2 : Nat) ^ n * a = 0 + 2 ^ i * (2 ^ (n - i - 1) * 2 * a) := by
      rw [← hpow]; ring
    rw [e1, e2, Nat.add_mul_div_left _ _ (Nat.two_pow_pos i),
      Nat.add_mul_div_left _ _ (Nat.two_pow_pos i)]
    have e3 : ∀ x : Nat, (x + 2 ^ (n - i - 1) * 2 * a) % 2 = x % 2 := by
      intro x
      have : x + 2 ^ (n - i - 1) * 2 * a = x + 2 * (2 ^ (n - i - 1) * a) := by ring
      rw [this, Nat.add_mul_mod_self_left]
    rw [e3, e3]
    simp
  · have hb2 : b < 2 ^ i := lt_of_lt_of_le hb (Nat.pow_le_pow_right (by norm_num) hi)
    have hbz : b / 2 ^ i = 0 := Nat.div_eq_of_lt hb2
    have hpow : (2 : Nat) ^ n * 2 ^ (i - n) = 2 ^ i := by
      rw [← pow_add]; congr 1; omega
    have e1 : (2 ^ n * a + b) / 2 ^ i = a / 2 ^ (i - n) := by
      rw [← hpow, ← Nat.div_div_eq_div_mul, Nat.mul_add_div (Nat.two_pow_pos n),
        Nat.div_eq_of_lt hb, Nat.add_zero]
    have e2 : (2 ^ n * a) / 2 ^ i = a / 2 ^ (i - n) := by
      rw [← hpow, ← Nat.div_div_eq_div_mul, Nat.mul_div_cancel_left a (Nat.two_pow_pos n)]
    rw [e1, e2, hbz]
    simp

theorem low_bits_lt (L : Layout) (m s : Nat) (hm : m < 2 ^ L.machine_id_bits)
    (hs : s < 2 ^ L.sequence_bits) :
    m * 2 ^ L.sequence_bits + s < 2 ^ L.timestamp_shift := by
  rw [Layout.timestamp_shift, pow_add]
  calc m * 2 ^ L.sequence_bits + s < (m + 1) * 2 ^ L.sequence_bits := by
        rw [add_mul, one_mul]; omega
    _ ≤ 2 ^ L.machine_id_bits * 2 ^ L.sequence_bits :=
        Nat.mul_le_mul_right _ (by omega)

theorem from_component_parts_eq (L : Layout) (t m s : Nat)
    (hw : L.timestamp_bits + L.machine_id_bits + L.sequence_bits ≤ 63)
    (ht : t ≤ L.timestamp_mask) (hm : m ≤ L.machine_id_mask) (hs : s ≤ L.sequence_mask) :
    L.from_component_parts t m s =
      t * 2 ^ L.timestamp_shift + m * 2 ^ L.sequence_bits + s := by
  have htb : t < 2 ^ L.timestamp_bits := by
    have := Nat.two_pow_pos L.timestamp_bits
    rw [timestamp_mask_eq] at ht; omega
  have hmb : m < 2 ^ L.machine_id_bits := by
    have := Nat.two_pow_pos L.machine_id_bits
    rw [machine_id_mask_eq] at hm; omega
  have hsb : s < 2 ^ L.sequence_bits := by
    have := Nat.two_pow_pos L.sequence_bits
    rw [sequence_mask_eq] at hs; omega
  have h64 : ∀ k : Nat, k ≤ 64 → (2 : Nat) ^ k ≤ 2 ^ 64 := fun k hk =>
    Nat.pow_le_pow_right (by norm_num) hk
  have hts : t * 2 ^ L.timestamp_shift < 2 ^ 64 := by
    calc t * 2 ^ L.timestamp_shift < 2 ^ L.timestamp_bits * 2 ^ L.timestamp_shift :=
          Nat.mul_lt_mul_of_lt_of_le htb (le_refl _) (Nat.two_pow_pos _)
      _ = 2 ^ (L.timestamp_bits + L.timestamp_shift) := (pow_add 2 _ _).symm
      _ ≤ 2 ^ 64 := h64 _ (by rw [Layout.timestamp_shift]; omega)
  have hms : m * 2 ^ L.sequence_bits < 2 ^ L.timestamp_shift :=
    lt_of_le_of_lt (Nat.le_add_right _ s) (low_bits_lt L m s hmb hsb)
  have hms64 : m * 2 ^ L.sequence_bits < 2 ^ 64 :=
    lt_of_lt_of_le hms (h64 _ (by rw [Layout.timestamp_shift]; omega))
  have hs64 : s < 2 ^ 64 :=
    lt_of_lt_of_le hsb (h64 _ (by omega))
  rw [Layout.from_component_parts,
    Nat.mod_eq_of_lt (lt_of_lt_of_le htb (h64 _ (by omega))),
    Nat.mod_eq_of_lt (lt_of_lt_of_le hmb (h64 _ (by omega))),
    Nat.mod_eq_of_lt hs64, Nat.shiftLeft_eq, Nat.shiftLeft_eq,
    Nat.mod_eq_of_lt hts, Nat.mod_eq_of_lt hms64, Nat.lor_assoc]
  rw [show m * 2 ^ L.sequence_bits = 2 ^ L.sequence_bits * m from mul_comm _ _,
    lor_two_pow_mul_eq_add _ _ _ hsb,
    show t * 2 ^ L.timestamp_shift = 2 ^ L.timestamp_shift * t from mul_comm _ _,
    lor_two_pow_mul_eq_add _ _ _ (by
      have := low_bits_lt L m s hmb hsb
      rw [show (2 : Nat) ^ L.sequence_bits * m = m * 2 ^ L.sequence_bits from mul_comm _ _]
      omega)]
  ring

theorem pack_lt_total (L : Layout) (t m s : Nat)
    (ht : t < 2 ^ L.timestamp_bits) (hm : m < 2 ^ L.machine_id_bits)
    (hs : s < 2 ^ L.sequence_bits) :
    t * 2 ^ L.timestamp_shift + m * 2 ^ L.sequence_bits + s <
      2 ^ (L.timestamp_bits + L.machine_id_bits + L.sequence_bits) := by
  have hlow := low_bits_lt L m s hm hs
  have hstep : (t + 1) * 2 ^ L.timestamp_shift ≤
      2 ^ L.timestamp_bits * 2 ^ L.timestamp_shift :=
    Nat.mul_le_mul_right _ (by omega)
  have hexp : (t + 1) * 2 ^ L.timestamp_shift = t * 2 ^ L.timestamp_shift +
      2 ^ L.timestamp_shift := by ring
  have htotal : (2 : Nat) ^ L.timestamp_bits * 2 ^ L.timestamp_shift =
      2 ^ (L.timestamp_bits + L.machine_id_bits + L.sequence_bits) := by
    rw [← pow_add, Layout.timestamp_shift]
    congr 1
    omega
  omega

theorem pow_masks_sum (a b c : Nat) :
    (2 ^ a - 1) * (2 ^ b * 2 ^ c) + ((2 ^ b - 1) * 2 ^ c + (2 ^ c - 1)) =
      2 ^ a * (2 ^ b * 2 ^ c) - 1 := by
  have hA := Nat.two_pow_pos a
  have hB := Nat.two_pow_pos b
  have hC := Nat.two_pow_pos c
  rw [tsub_mul, tsub_mul, one_mul, one_mul]
  have h1 : 2 ^ b * 2 ^ c ≤ 2 ^ a * (2 ^ b * 2 ^ c) := Nat.le_mul_of_pos_left _ hA
  have h2 : (2 : Nat) ^ c ≤ 2 ^ b * 2 ^ c := Nat.le_mul_of_pos_left _ hB
  omega

theorem valid_mask_eq (L : Layout) :
    L.valid_mask = 2 ^ (L.timestamp_bits + L.machine_id_bits + L.sequence_bits) - 1 := by
  have hmb := Nat.two_pow_pos L.machine_id_bits
  have hsb := Nat.two_pow_pos L.sequence_bits
  have hmlt : L.machine_id_mask < 2 ^ L.machine_id_bits := by rw [machine_id_mask_eq]; omega
  have hslt : L.sequence_mask < 2 ^ L.sequence_bits := by rw [sequence_mask_eq]; omega
  rw [Layout.valid_mask, Nat.shiftLeft_eq, Nat.shiftLeft_eq, Nat.lor_assoc]
  rw [show L.machine_id_mask * 2 ^ L.sequence_bits =
      2 ^ L.sequence_bits * L.machine_id_mask from mul_comm _ _,
    lor_two_pow_mul_eq_add _ _ _ hslt,
    show L.timestamp_mask * 2 ^ L.timestamp_shift =
      2 ^ L.timestamp_shift * L.timestamp_mask from mul_comm _ _,
    lor_two_pow_mul_eq_add _ _ _ (by
      have := low_bits_lt L L.machine_id_mask L.sequence_mask hmlt hslt
      rw [show (2 : Nat) ^ L.sequence_bits * L.machine_id_mask =
        L.machine_id_mask * 2 ^ L.sequence_bits from mul_comm _ _]
      omega)]
  rw [timestamp_mask_eq, machine_id_mask_eq, sequence_mask_eq, Layout.timestamp_shift]
  calc 2 ^ (L.machine_id_bits + L.sequence_bits) * (2 ^ L.timestamp_bits - 1) +
        (2 ^ L.sequence_bits * (2 ^ L.machine_id_bits - 1) + (2 ^ L.sequence_bits - 1))
      = (2 ^ L.timestamp_bits - 1) * (2 ^ L.machine_id_bits * 2 ^ L.sequence_bits) +
        ((2 ^ L.machine_id_bits - 1) * 2 ^ L.sequence_bits + (2 ^ L.sequence_bits - 1)) := by
        rw [pow_add]; ring
    _ = 2 ^ L.timestamp_bits * (2 ^ L.machine_id_bits * 2 ^ L.sequence_bits) - 1 :=
        pow_masks_sum _ _ _
    _ = 2 ^ (L.timestamp_bits + L.machine_id_bits + L.sequence_bits) - 1 := by
        rw [show L.timestamp_bits + L.machine_id_bits + L.sequence_bits =
          L.timestamp_bits + (L.machine_id_bits + L.sequence_bits) from by omega,
          pow_add, pow_add]

theorem is_valid_of_lt (L : Layout)
    (hw : L.timestamp_bits + L.machine_id_bits + L.sequence_bits ≤ 63) (id : Nat)
    (hid : id < 2 ^ (L.timestamp_bits + L.machine_id_bits + L.sequence_bits)) :
    L.is_valid id = true := by
  rw [Layout.is_valid]
  have h0 : id &&& (L.valid_mask ^^^ (2 ^ 64 - 1)) = 0 := by
    apply Nat.eq_of_testBit_eq
    intro i
    rw [Nat.testBit_land, Nat.testBit_xor, valid_mask_eq, Nat.testBit_two_pow_sub_one,
      Nat.testBit_two_pow_sub_one, Nat.zero_testBit]
    by_cases hi : i < L.timestamp_bits + L.machine_id_bits + L.sequence_bits
    · have h64 : i < 64 := by omega
      simp [hi, h64]
    · have hbf : id.testBit i = false :=
        Nat.testBit_lt_two_pow
          (lt_of_lt_of_le hid (Nat.pow_le_pow_right (by norm_num) (by omega)))
      simp [hbf]
  rw [h0]
  rfl

/-- C7: for every triple within the field bounds, the three extraction
functions invert `from_component_parts` and the packed id passes
`is_valid`. -/
theorem round_trip_extraction (L : Layout) (t m s : Nat)
    (hw : L.timestamp_bits + L.machine_id_bits + L.sequence_bits ≤ 63)
    (ht : t ≤ L.timestamp_mask) (hm : m ≤ L.machine_id_mask) (hs : s ≤ L.sequence_mask) :
    L.timestamp (L.from_component_parts t m s) = t ∧
    L.machine_id (L.from_component_parts t m s) = m ∧
    L.sequence (L.from_component_parts t m s) = s ∧
    L.is_valid (L.from_component_parts t m s) = true := by
  have htb : t < 2 ^ L.timestamp_bits := by
    have := Nat.two_pow_pos L.timestamp_bits
    rw [timestamp_mask_eq] at ht; omega
  have hmb : m < 2 ^ L.machine_id_bits := by
    have := Nat.two_pow_pos L.machine_id_bits
    rw [machine_id_mask_eq] at hm; omega
  have hsb : s < 2 ^ L.sequence_bits := by
    have := Nat.two_pow_pos L.sequence_bits
    rw [sequence_mask_eq] at hs; omega
  have hpack := from_component_parts_eq L t m s hw ht hm hs
  have hshift : (2 : Nat) ^ L.timestamp_shift =
      2 ^ L.machine_id_bits * 2 ^ L.sequence_bits := by
    rw [Layout.timestamp_shift, pow_add]
  refine ⟨?_, ?_, ?_, ?_⟩
  · rw [Layout.timestamp, hpack, timestamp_mask_eq, Nat.and_pow_two_sub_one_eq_mod,
      Nat.shiftRight_eq_div_pow]
    have h1 : t * 2 ^ L.timestamp_shift + m * 2 ^ L.sequence_bits + s =
        m * 2 ^ L.sequence_bits + s + 2 ^ L.timestamp_shift * t := by ring
    rw [h1, Nat.add_mul_div_left _ _ (Nat.two_pow_pos _),
      Nat.div_eq_of_lt (low_bits_lt L m s hmb hsb), Nat.zero_add, Nat.mod_eq_of_lt htb]
  · rw [Layout.machine_id, hpack, machine_id_mask_eq, Nat.and_pow_two_sub_one_eq_mod,
      Nat.shiftRight_eq_div_pow]
    have h1 : t * 2 ^ L.timestamp_shift + m * 2 ^ L.sequence_bits + s =
        s + 2 ^ L.sequence_bits * (t * 2 ^ L.machine_id_bits + m) := by
      rw [hshift]; ring
    rw [h1, Nat.add_mul_div_left _ _ (Nat.two_pow_pos _), Nat.div_eq_of_lt hsb,
      Nat.zero_add]
    have h2 : t * 2 ^ L.machine_id_bits + m = m + 2 ^ L.machine_id_bits * t := by ring
    rw [h2, Nat.add_mul_mod_self_left, Nat.mod_eq_of_lt hmb]
  · rw [Layout.sequence, hpack, sequence_mask_eq, Nat.and_pow_two_sub_one_eq_mod]
    have h1 : t * 2 ^ L.timestamp_shift + m * 2 ^ L.sequence_bits + s =
        s + 2 ^ L.sequence_bits * (t * 2 ^ L.machine_id_bits + m) := by
      rw [hshift]; ring
    rw [h1, Nat.add_mul_mod_self_left, Nat.mod_eq_of_lt hsb]
  · rw [hpack]
    exact is_valid_of_lt L hw _ (pack_lt_total L t m s htb hmb hsb)

/-- Witness for C7 at the classic 41/10/12 layout. -/
theorem round_trip_extraction_witness :
    Layout.timestamp ⟨41, 10, 12⟩ (Layout.from_component_parts ⟨41, 10, 12⟩ 5 3 7) = 5 ∧
    Layout.machine_id ⟨41, 10, 12⟩ (Layout.from_component_parts ⟨41, 10, 12⟩ 5 3 7) = 3 ∧
    Layout.sequence ⟨41, 10, 12⟩ (Layout.from_component_parts ⟨41, 10, 12⟩ 5 3 7) = 7 ∧
    Layout.is_valid ⟨41, 10, 12⟩ (Layout.from_component_parts ⟨41, 10, 12⟩ 5 3 7) = true :=
  round_trip_extraction ⟨41, 10, 12⟩ 5 3 7 (by decide) (by decide) (by decide) (by decide)

/-! Lemmas about one generator step. -/

theorem key_lt_iff (s1 s2 : GeneratorState) :
    key_lt s1 s2 ↔ (s1.last_timestamp < s2.last_timestamp ∨
      (s1.last_timestamp = s2.last_timestamp ∧ s1.sequence < s2.sequence)) := Iff.rfl

theorem in_range_iff (g : GenConfig) (st : GeneratorState) :
    in_range g st ↔ (0 ≤ st.last_timestamp - g.epoch ∧
      st.last_timestamp - g.epoch ≤ g.layout.max_timestamp ∧
      st.sequence ≤ g.layout.max_sequence) := Iff.rfl

theorem key_lt_trans {a b c : GeneratorState} (h1 : key_lt a b) (h2 : key_lt b c) :
    key_lt a c := by
  rw [key_lt_iff] at h1 h2 ⊢
  omega

theorem next_seq_le (L : Layout) (s : Nat) : (s + 1) &&& L.max_sequence ≤ L.max_sequence := by
  rw [max_sequence_eq, Nat.and_pow_two_sub_one_eq_mod]
  have := Nat.mod_lt (s + 1) (Nat.two_pow_pos L.sequence_bits)
  omega

theorem next_seq_eq_succ (L : Layout) (s : Nat) (hs : s ≤ L.max_sequence)
    (hnz : (s + 1) &&& L.max_sequence ≠ 0) : (s + 1) &&& L.max_sequence = s + 1 := by
  rw [max_sequence_eq] at hs
  rw [max_sequence_eq, Nat.and_pow_two_sub_one_eq_mod] at hnz ⊢
  rcases Nat.lt_or_ge (s + 1) (2 ^ L.sequence_bits) with h | h
  · rw [Nat.mod_eq_of_lt h]
  · have hpos := Nat.two_pow_pos L.sequence_bits
    have hse : s + 1 = 2 ^ L.sequence_bits := by omega
    rw [hse, Nat.mod_self] at hnz
    exact absurd rfl hnz

theorem commit_step_eq (g : GenConfig) (st2 : GeneratorState) :
    commit_step g st2 =
      if st2.last_timestamp - g.epoch < 0 ∨
          st2.last_timestamp - g.epoch > g.layout.max_timestamp then
        (Except.error SnowflakeError.TimestampOverflow, st2)
      else
        (Except.ok (SnowflakeOperation.Ready (id_of_state g st2)), st2) := rfl

/-- The masked committed offset of an in-range state is the offset itself. -/
theorem masked_offset_eq (g : GenConfig) (st : GeneratorState)
    (h0 : 0 ≤ st.last_timestamp - g.epoch)
    (h1 : st.last_timestamp - g.epoch ≤ g.layout.max_timestamp) :
    (st.last_timestamp - g.epoch).toNat &&& ((1 <<< g.layout.timestamp_bits) - 1) =
      (st.last_timestamp - g.epoch).toNat := by
  have hmask : ((1 : Nat) <<< g.layout.timestamp_bits) - 1 =
      2 ^ g.layout.timestamp_bits - 1 := by rw [Nat.shiftLeft_eq, one_mul]
  have htN : (st.last_timestamp - g.epoch).toNat ≤ g.layout.timestamp_mask := by
    rw [Layout.max_timestamp] at h1
    omega
  rw [hmask, Nat.and_pow_two_sub_one_eq_mod, Nat.mod_eq_of_lt]
  rw [timestamp_mask_eq] at htN
  have := Nat.two_pow_pos g.layout.timestamp_bits
  omega

theorem id_of_state_fields (g : GenConfig)
    (hw : g.layout.timestamp_bits + g.layout.machine_id_bits + g.layout.sequence_bits ≤ 63)
    (hm : g.machine_id ≤ g.layout.max_machine_id)
    (s' : GeneratorState) (hr : in_range g s') :
    g.layout.timestamp (id_of_state g s') = (s'.last_timestamp - g.epoch).toNat ∧
    g.layout.machine_id (id_of_state g s') = g.machine_id ∧
    g.layout.sequence (id_of_state g s') = s'.sequence ∧
    g.layout.is_valid (id_of_state g s') = true ∧
    id_of_state g s' =
      (s'.last_timestamp - g.epoch).toNat * 2 ^ g.layout.timestamp_shift +
        g.machine_id * 2 ^ g.layout.sequence_bits + s'.sequence ∧
    id_of_state g s' < 2 ^ 63 := by
  rw [in_range_iff] at hr
  obtain ⟨hr0, hr1, hr2⟩ := hr
  have htN : (s'.last_timestamp - g.epoch).toNat ≤ g.layout.timestamp_mask := by
    rw [Layout.max_timestamp] at hr1
    omega
  have hpack : id_of_state g s' =
      g.layout.from_component_parts ((s'.last_timestamp - g.epoch).toNat)
        g.machine_id s'.sequence := by
    rw [id_of_state, masked_offset_eq g s' hr0 hr1]
  rw [Layout.max_machine_id] at hm
  rw [Layout.max_sequence] at hr2
  have hrt := round_trip_extraction g.layout _ g.machine_id s'.sequence hw htN hm hr2
  have heq := from_component_parts_eq g.layout _ g.machine_id s'.sequence hw htN hm hr2
  refine ⟨by rw [hpack]; exact hrt.1, by rw [hpack]; exact hrt.2.1,
    by rw [hpack]; exact hrt.2.2.1, by rw [hpack]; exact hrt.2.2.2,
    by rw [hpack]; exact heq, ?_⟩
  rw [hpack, heq]
  have htb : (s'.last_timestamp - g.epoch).toNat < 2 ^ g.layout.timestamp_bits := by
    rw [timestamp_mask_eq] at htN
    have := Nat.two_pow_pos g.layout.timestamp_bits
    omega
  have hmb : g.machine_id < 2 ^ g.layout.machine_id_bits := by
    rw [machine_id_mask_eq] at hm
    have := Nat.two_pow_pos g.layout.machine_id_bits
    omega
  have hsb : s'.sequence < 2 ^ g.layout.sequence_bits := by
    rw [sequence_mask_eq] at hr2
    have := Nat.two_pow_pos g.layout.sequence_bits
    omega
  exact lt_of_lt_of_le (pack_lt_total g.layout _ _ _ htb hmb hsb)
    (Nat.pow_le_pow_right (by norm_num) hw)

/-- Ready outcomes of one `try_next_id` step: the committed state and the
shape of the returned id (no assumption on the pre-state sequence). -/
theorem try_next_id_ready (g : GenConfig) (st : GeneratorState) (t : Int) (id : Nat)
    (st' : GeneratorState)
    (h : try_next_id g st t = (Except.ok (SnowflakeOperation.Ready id), st')) :
    st'.last_timestamp = t ∧ (st.last_timestamp < t → st'.sequence = 0) ∧
      in_range g st' ∧ id = id_of_state g st' := by
  simp only [try_next_id] at h
  split_ifs at h with h1 h2 h3 h4
  · simp at h
  · simp at h
  · simp at h
  · rw [commit_step_eq] at h
    split_ifs at h with hov
    · simp at h
    · injection h with hr hst
      injection hr with hr
      injection hr with hr
      have hlast : st'.last_timestamp = t := by rw [← hst]
      have hseq : st'.sequence = (st.sequence + 1) &&& g.layout.max_sequence := by
        rw [← hst]
      refine ⟨hlast, ?_, ?_, ?_⟩
      · intro hc
        omega
      · rw [in_range_iff, hlast, hseq]
        dsimp only at hov
        exact ⟨by omega, by omega, next_seq_le g.layout st.sequence⟩
      · rw [← hst]
        exact hr.symm
  · rw [commit_step_eq] at h
    split_ifs at h with hov
    · simp at h
    · injection h with hr hst
      injection hr with hr
      injection hr with hr
      have hlast : st'.last_timestamp = t := by rw [← hst]
      have hseq : st'.sequence = 0 := by rw [← hst]
      refine ⟨hlast, fun _ => hseq, ?_, ?_⟩
      · rw [in_range_iff, hlast, hseq]
        dsimp only at hov
        exact ⟨by omega, by omega, Nat.zero_le _⟩
      · rw [← hst]
        exact hr.symm

/-- Full case analysis of one `try_next_id` step from a state whose
sequence is within its field: the state never regresses, the sequence
invariant is preserved, and a Ready outcome strictly advances the
`(last_timestamp, sequence)` key. -/
theorem try_next_id_step (g : GenConfig) (st : GeneratorState) (t : Int)
    (r : Except SnowflakeError SnowflakeOperation) (st' : GeneratorState)
    (hs : st.sequence ≤ g.layout.max_sequence)
    (h : try_next_id g st t = (r, st')) :
    (st' = st ∨ key_lt st st') ∧ st'.sequence ≤ g.layout.max_sequence ∧
      ∀ id, r = Except.ok (SnowflakeOperation.Ready id) →
        key_lt st st' ∧ in_range g st' ∧ id = id_of_state g st' := by
  have hready := fun id (hid : r = Except.ok (SnowflakeOperation.Ready id)) =>
    try_next_id_ready g st t id st' (hid ▸ h)
  simp only [try_next_id] at h
  split_ifs at h with h1 h2 h3 h4
  · injection h with hr hst
    subst hst
    exact ⟨Or.inl rfl, hs, fun id hid => by rw [← hr] at hid; simp at hid⟩
  · injection h with hr hst
    subst hst
    exact ⟨Or.inl rfl, hs, fun id hid => by rw [← hr] at hid; simp at hid⟩
  · injection h with hr hst
    subst hst
    exact ⟨Or.inl rfl, hs, fun id hid => by rw [← hr] at hid; simp at hid⟩
  · have hkey : key_lt st st' := by
      have hst' : st' = ⟨t, (st.sequence + 1) &&& g.layout.max_sequence⟩ := by
        rw [commit_step_eq] at h
        split_ifs at h <;> injection h with hr hst <;> exact hst.symm
      have hsucc := next_seq_eq_succ g.layout st.sequence hs h4
      rw [key_lt_iff, hst']
      refine Or.inr ⟨h3.symm, ?_⟩
      dsimp only
      omega
    have hseq : st'.sequence ≤ g.layout.max_sequence := by
      have hst' : st' = ⟨t, (st.sequence + 1) &&& g.layout.max_sequence⟩ := by
        rw [commit_step_eq] at h
        split_ifs at h <;> injection h with hr hst <;> exact hst.symm
      rw [hst']
      exact next_seq_le g.layout st.sequence
    exact ⟨Or.inr hkey, hseq, fun id hid =>
      ⟨hkey, (hready id hid).2.2.1, (hready id hid).2.2.2⟩⟩
  · have hkey : key_lt st st' := by
      have hst' : st' = ⟨t, 0⟩ := by
        rw [commit_step_eq] at h
        split_ifs at h <;> injection h with hr hst <;> exact hst.symm
      rw [key_lt_iff, hst']
      refine Or.inl ?_
      dsimp only
      omega
    have hseq : st'.sequence ≤ g.layout.max_sequence := by
      have hst' : st' = ⟨t, 0⟩ := by
        rw [commit_step_eq] at h
        split_ifs at h <;> injection h with hr hst <;> exact hst.symm
      rw [hst']
      exact Nat.zero_le _
    exact ⟨Or.inr hkey, hseq, fun id hid =>
      ⟨hkey, (hready id hid).2.2.1, (hready id hid).2.2.2⟩⟩

/-- C2: on a backwards clock reading, drift within tolerance yields
Pending(drift) with the state untouched, drift beyond tolerance yields the
fatal ClockMovedBackwards error. -/
theorem clock_regression_tolerance (g : GenConfig) (st : GeneratorState) (t : Int)
    (hlt : t < st.last_timestamp) :
    (st.last_timestamp - t ≤ g.tolerance_ms →
      try_next_id g st t =
        (Except.ok (SnowflakeOperation.Pending (st.last_timestamp - t).toNat), st)) ∧
    (g.tolerance_ms < st.last_timestamp - t →
      try_next_id g st t = (Except.error SnowflakeError.ClockMovedBackwards, st)) := by
  constructor
  · intro hd
    simp only [try_next_id]
    rw [if_pos hlt, if_pos hd]
  · intro hd
    simp only [try_next_id]
    rw [if_pos hlt, if_neg (by omega)]

/-- Witness for C2 at tolerance 10 with drifts of exactly 10 and 11. -/
theorem clock_regression_tolerance_witness :
    try_next_id ⟨⟨41, 10, 12⟩, 10, 1, 0⟩ ⟨100, 0⟩ 90 =
      (Except.ok (SnowflakeOperation.Pending 10), ⟨100, 0⟩) ∧
    try_next_id ⟨⟨41, 10, 12⟩, 10, 1, 0⟩ ⟨100, 0⟩ 89 =
      (Except.error SnowflakeError.ClockMovedBackwards, ⟨100, 0⟩) :=
  ⟨(clock_regression_tolerance ⟨⟨41, 10, 12⟩, 10, 1, 0⟩ ⟨100, 0⟩ 90 (by decide)).1 (by decide),
    (clock_regression_tolerance ⟨⟨41, 10, 12⟩, 10, 1, 0⟩ ⟨100, 0⟩ 89 (by decide)).2 (by decide)⟩

/-- C3: in the same-millisecond branch the next sequence is computed by
masking (equal to the modular successor); on exhaustion the call is
Pending(1 ms) with the state untouched, otherwise the sequence is committed
and carried by the Ready id; after the clock advances past the frozen
millisecond, the next Ready id has sequence field 0 and an advanced
timestamp field. -/
theorem sequence_rollover (g : GenConfig) (st : GeneratorState) (t : Int)
    (hw : g.layout.timestamp_bits + g.layout.machine_id_bits + g.layout.sequence_bits ≤ 63)
    (hm : g.machine_id ≤ g.layout.max_machine_id)
    (heq : t = st.last_timestamp) :
    ((st.sequence + 1) &&& g.layout.max_sequence =
        (st.sequence + 1) % (g.layout.max_sequence + 1)) ∧
    ((st.sequence + 1) &&& g.layout.max_sequence = 0 →
      try_next_id g st t = (Except.ok (SnowflakeOperation.Pending 1), st)) ∧
    ((st.sequence + 1) &&& g.layout.max_sequence ≠ 0 →
      (try_next_id g st t).2.sequence = (st.sequence + 1) &&& g.layout.max_sequence ∧
      ∀ id, (try_next_id g st t).1 = Except.ok (SnowflakeOperation.Ready id) →
        g.layout.sequence id = (st.sequence + 1) &&& g.layout.max_sequence) ∧
    ((st.sequence + 1) &&& g.layout.max_sequence = 0 →
      ∀ t' id' st'', st.last_timestamp < t' →
        try_next_id g st t' = (Except.ok (SnowflakeOperation.Ready id'), st'') →
        g.layout.sequence id' = 0 ∧
        (g.layout.timestamp id' : Int) = t' - g.epoch ∧
        st.last_timestamp - g.epoch < (g.layout.timestamp id' : Int)) := by
  have hmod : (st.sequence + 1) &&& g.layout.max_sequence =
      (st.sequence + 1) % (g.layout.max_sequence + 1) := by
    have hpos := Nat.two_pow_pos g.layout.sequence_bits
    have hmax : g.layout.max_sequence + 1 = 2 ^ g.layout.sequence_bits := by
      rw [max_sequence_eq]; omega
    rw [hmax, max_sequence_eq, Nat.and_pow_two_sub_one_eq_mod]
  refine ⟨hmod, ?_, ?_, ?_⟩
  · intro hz
    simp only [try_next_id]
    rw [if_neg (by omega), if_pos heq, if_pos hz]
  · intro hnz
    have hbranch : try_next_id g st t =
        commit_step g ⟨t, (st.sequence + 1) &&& g.layout.max_sequence⟩ := by
      simp only [try_next_id]
      rw [if_neg (by omega), if_pos heq, if_neg hnz]
    constructor
    · rw [hbranch, commit_step_eq]
      split_ifs <;> rfl
    · intro id hid
      rw [hbranch, commit_step_eq] at hid
      split_ifs at hid with hov
      dsimp only at hid hov
      rw [Except.ok.injEq, SnowflakeOperation.Ready.injEq] at hid
      have hr : in_range g ⟨t, (st.sequence + 1) &&& g.layout.max_sequence⟩ := by
        rw [in_range_iff]
        dsimp only
        exact ⟨by omega, by omega, next_seq_le g.layout st.sequence⟩
      have hfields := (id_of_state_fields g hw hm _ hr).2.2.1
      rw [← hid]
      exact hfields
  · intro hz t' id' st'' hlt' hstep
    obtain ⟨hlast, hseq0, hr, hid⟩ := try_next_id_ready g st t' id' st'' hstep
    have hs0 : st''.sequence = 0 := hseq0 hlt'
    have hf := id_of_state_fields g hw hm st'' hr
    rw [in_range_iff] at hr
    refine ⟨?_, ?_, ?_⟩
    · rw [hid, hf.2.2.1, hs0]
    · rw [hid, hf.1, hlast]
      omega
    · rw [hid, hf.1]
      omega

/-- Witness for C3: frozen clock at 100 with the sequence field exhausted,
then a reading at 101. -/
theorem sequence_rollover_witness :
    try_next_id ⟨⟨41, 10, 12⟩, 10, 1, 0⟩ ⟨100, 4095⟩ 100 =
      (Except.ok (SnowflakeOperation.Pending 1), ⟨100, 4095⟩) ∧
    Layout.sequence ⟨41, 10, 12⟩ 423628800 = 0 ∧
    (Layout.timestamp ⟨41, 10, 12⟩ 423628800 : Int) = 101 - 0 ∧
    (100 : Int) - 0 < (Layout.timestamp ⟨41, 10, 12⟩ 423628800 : Int) := by
  have thm := sequence_rollover ⟨⟨41, 10, 12⟩, 10, 1, 0⟩ ⟨100, 4095⟩ 100
    (by decide) (by decide) rfl
  have h4 := thm.2.2.2 (by decide) 101 423628800 ⟨101, 0⟩ (by decide) (by rfl)
  exact ⟨thm.2.1 (by decide), h4.1, h4.2.1, h4.2.2⟩

/-- C4: once the clock-backwards and sequence-exhaustion branches are
passed, `last_timestamp` is committed to the reading, and the step fails
with TimestampOverflow exactly when the offset is outside
`[0, max_timestamp]`; otherwise it returns Ready. -/
theorem timestamp_overflow_check (g : GenConfig) (st : GeneratorState) (t : Int)
    (h1 : ¬ t < st.last_timestamp)
    (h2 : ¬(t = st.last_timestamp ∧ (st.sequence + 1) &&& g.layout.max_sequence = 0)) :
    (try_next_id g st t).2.last_timestamp = t ∧
    ((try_next_id g st t).1 = Except.error SnowflakeError.TimestampOverflow ↔
      (t - g.epoch < 0 ∨ t - g.epoch > g.layout.max_timestamp)) ∧
    (¬(t - g.epoch < 0 ∨ t - g.epoch > g.layout.max_timestamp) →
      (try_next_id g st t).1 =
        Except.ok (SnowflakeOperation.Ready
          (id_of_state g (try_next_id g st t).2))) := by
  by_cases heq : t = st.last_timestamp
  · have hnz : (st.sequence + 1) &&& g.layout.max_sequence ≠ 0 := fun hz => h2 ⟨heq, hz⟩
    have hbranch : try_next_id g st t =
        commit_step g ⟨t, (st.sequence + 1) &&& g.layout.max_sequence⟩ := by
      simp only [try_next_id]
      rw [if_neg h1, if_pos heq, if_neg hnz]
    rw [hbranch, commit_step_eq]
    split_ifs with hov
    · dsimp only at hov
      refine ⟨rfl, iff_of_true rfl hov, fun hc => absurd hov hc⟩
    · dsimp only at hov
      exact ⟨rfl, iff_of_false (by simp) hov, fun _ => rfl⟩
  · have hbranch : try_next_id g st t = commit_step g ⟨t, 0⟩ := by
      simp only [try_next_id]
      rw [if_neg h1, if_neg heq]
    rw [hbranch, commit_step_eq]
    split_ifs with hov
    · dsimp only at hov
      refine ⟨rfl, iff_of_true rfl hov, fun hc => absurd hov hc⟩
    · dsimp only at hov
      exact ⟨rfl, iff_of_false (by simp) hov, fun _ => rfl⟩

/-- Witness for C4: a negative offset fails with TimestampOverflow, an
in-range offset yields Ready. -/
theorem timestamp_overflow_check_witness :
    (try_next_id ⟨⟨41, 10, 12⟩, 10, 1, 1000⟩ ⟨0, 0⟩ 5).1 =
      Except.error SnowflakeError.TimestampOverflow ∧
    (try_next_id ⟨⟨41, 10, 12⟩, 10, 1, 0⟩ ⟨5, 0⟩ 5).1 =
      Except.ok (SnowflakeOperation.Ready
        (id_of_state ⟨⟨41, 10, 12⟩, 10, 1, 0⟩
          (try_next_id ⟨⟨41, 10, 12⟩, 10, 1, 0⟩ ⟨5, 0⟩ 5).2)) := by
  have t1 := timestamp_overflow_check ⟨⟨41, 10, 12⟩, 10, 1, 1000⟩ ⟨0, 0⟩ 5
    (by decide) (by decide)
  have t2 := timestamp_overflow_check ⟨⟨41, 10, 12⟩, 10, 1, 0⟩ ⟨5, 0⟩ 5
    (by decide) (by decide)
  exact ⟨t1.2.1.mpr (by decide), t2.2.2 (by decide)⟩

/-! Monotonicity of packed ids in the `(timestamp, sequence)` key, and the
run-level ordering lemma behind C1 and C8. -/

theorem pack_lt_pack (L : Layout) (m : Nat)
    (hw : L.timestamp_bits + L.machine_id_bits + L.sequence_bits ≤ 63)
    (hm : m ≤ L.machine_id_mask)
    (t1 s1 t2 s2 : Nat) (ht1 : t1 ≤ L.timestamp_mask) (hs1 : s1 ≤ L.sequence_mask)
    (ht2 : t2 ≤ L.timestamp_mask) (hs2 : s2 ≤ L.sequence_mask)
    (hlt : t1 < t2 ∨ (t1 = t2 ∧ s1 < s2)) :
    L.from_component_parts t1 m s1 < L.from_component_parts t2 m s2 := by
  rw [from_component_parts_eq L t1 m s1 hw ht1 hm hs1,
    from_component_parts_eq L t2 m s2 hw ht2 hm hs2]
  have hmb : m < 2 ^ L.machine_id_bits := by
    have := Nat.two_pow_pos L.machine_id_bits
    rw [machine_id_mask_eq] at hm; omega
  have hs1b : s1 < 2 ^ L.sequence_bits := by
    have := Nat.two_pow_pos L.sequence_bits
    rw [sequence_mask_eq] at hs1; omega
  rcases hlt with hlt | ⟨heq, hslt⟩
  · have hlow1 := low_bits_lt L m s1 hmb hs1b
    have hkey : t1 * 2 ^ L.timestamp_shift + 2 ^ L.timestamp_shift ≤
        t2 * 2 ^ L.timestamp_shift := by
      have h1 : (t1 + 1) * 2 ^ L.timestamp_shift ≤ t2 * 2 ^ L.timestamp_shift :=
        Nat.mul_le_mul_right _ (by omega)
      have h2 : (t1 + 1) * 2 ^ L.timestamp_shift =
          t1 * 2 ^ L.timestamp_shift + 2 ^ L.timestamp_shift := by ring
      omega
    omega
  · subst heq
    omega

theorem id_of_state_lt (g : GenConfig)
    (hw : g.layout.timestamp_bits + g.layout.machine_id_bits + g.layout.sequence_bits ≤ 63)
    (hm : g.machine_id ≤ g.layout.max_machine_id)
    (s1 s2 : GeneratorState) (h1 : in_range g s1) (h2 : in_range g s2)
    (hk : key_lt s1 s2) : id_of_state g s1 < id_of_state g s2 := by
  rw [in_range_iff] at h1 h2
  obtain ⟨h10, h11, h12⟩ := h1
  obtain ⟨h20, h21, h22⟩ := h2
  rw [id_of_state, id_of_state, masked_offset_eq g s1 h10 h11,
    masked_offset_eq g s2 h20 h21]
  rw [Layout.max_machine_id] at hm
  rw [Layout.max_timestamp] at h11 h21
  rw [Layout.max_sequence] at h12 h22
  rw [key_lt_iff] at hk
  exact pack_lt_pack g.layout g.machine_id hw hm _ _ _ _
    (by omega) h12 (by omega) h22 (by omega)

theorem run_try_next_spec (g : GenConfig)
    (hw : g.layout.timestamp_bits + g.layout.machine_id_bits + g.layout.sequence_bits ≤ 63)
    (hm : g.machine_id ≤ g.layout.max_machine_id) :
    ∀ (ts : List Int) (st : GeneratorState), st.sequence ≤ g.layout.max_sequence →
      List.Pairwise (· < ·) (ready_ids (run_try_next g st ts).1) ∧
      ∀ id ∈ ready_ids (run_try_next g st ts).1,
        ∃ s', key_lt st s' ∧ in_range g s' ∧ id = id_of_state g s' := by
  intro ts
  induction ts with
  | nil =>
    intro st hst
    simp [run_try_next, ready_ids]
  | cons t ts ih =>
    intro st hst
    rcases hp : try_next_id g st t with ⟨r, st1⟩
    obtain ⟨hmono, hseq1, hready⟩ := try_next_id_step g st t r st1 hst hp
    have hrun : run_try_next g st (t :: ts) =
        (r :: (run_try_next g st1 ts).1, (run_try_next g st1 ts).2) := by
      simp [run_try_next, hp]
    rw [hrun]
    obtain ⟨ihp, ihb⟩ := ih st1 hseq1
    have hweak : ∀ id ∈ ready_ids (run_try_next g st1 ts).1,
        ∃ s', key_lt st s' ∧ in_range g s' ∧ id = id_of_state g s' := by
      intro id hid
      obtain ⟨s', hk', hr', hideq⟩ := ihb id hid
      refine ⟨s', ?_, hr', hideq⟩
      rcases hmono with he | hk0
      · rwa [he] at hk'
      · exact key_lt_trans hk0 hk'
    rcases r with e | op
    · have hcons : ready_ids (Except.error e :: (run_try_next g st1 ts).1) =
          ready_ids (run_try_next g st1 ts).1 := by simp [ready_ids]
      dsimp only
      rw [hcons]
      exact ⟨ihp, hweak⟩
    · rcases op with id0 | w
      · obtain ⟨hk0, hr0, hid0⟩ := hready id0 rfl
        have hcons : ready_ids (Except.ok (SnowflakeOperation.Ready id0) ::
            (run_try_next g st1 ts).1) =
            id0 :: ready_ids (run_try_next g st1 ts).1 := by simp [ready_ids]
        dsimp only
        rw [hcons]
        constructor
        · rw [List.pairwise_cons]
          refine ⟨?_, ihp⟩
          intro id' hid'
          obtain ⟨s', hk', hr', hideq⟩ := ihb id' hid'
          rw [hid0, hideq]
          exact id_of_state_lt g hw hm st1 s' hr0 hr' hk'
        · intro id hid
          rcases List.mem_cons.mp hid with hhd | htl
          · exact ⟨st1, hk0, hr0, hhd ▸ hid0⟩
          · exact hweak id htl
      · have hcons : ready_ids (Except.ok (SnowflakeOperation.Pending w) ::
            (run_try_next g st1 ts).1) =
            ready_ids (run_try_next g st1 ts).1 := by simp [ready_ids]
        dsimp only
        rw [hcons]
        exact ⟨ihp, hweak⟩

/-- C1: across any sequence of `try_next_id` calls on one generator
instance (the single-id and bulk entry points of both wrappers are loops
over this step), the ids of the completed Ready outcomes are strictly
increasing in raw 64-bit value in issuance order, hence pairwise distinct;
stated under the claim's assumption that no call ends in a fatal error
(the proof does not even need it). -/
theorem ids_strictly_increasing (g : GenConfig) (st : GeneratorState) (ts : List Int)
    (hw : g.layout.timestamp_bits + g.layout.machine_id_bits + g.layout.sequence_bits ≤ 63)
    (hm : g.machine_id ≤ g.layout.max_machine_id)
    (hs : st.sequence ≤ g.layout.max_sequence)
    (_hfatal : ∀ r ∈ (run_try_next g st ts).1, r.isOk = true) :
    List.Pairwise (· < ·) (ready_ids (run_try_next g st ts).1) ∧
    (ready_ids (run_try_next g st ts).1).Nodup := by
  have h := (run_try_next_spec g hw hm ts st hs).1
  exact ⟨h, h.imp Nat.ne_of_lt⟩

/-- Witness for C1: three calls at clock readings 1, 1, 2. -/
theorem ids_strictly_increasing_witness :
    List.Pairwise (· < ·)
      (ready_ids (run_try_next ⟨⟨41, 10, 12⟩, 10, 1, 0⟩ ⟨0, 0⟩ [1, 1, 2]).1) ∧
    (ready_ids (run_try_next ⟨⟨41, 10, 12⟩, 10, 1, 0⟩ ⟨0, 0⟩ [1, 1, 2]).1).Nodup :=
  ids_strictly_increasing ⟨⟨41, 10, 12⟩, 10, 1, 0⟩ ⟨0, 0⟩ [1, 1, 2]
    (by decide) (by decide) (by decide) (by decide)

/-! The bulk paths. -/

theorem wait_lt_ge (clock : Nat → Int) (last : Int) :
    ∀ (fuel i : Nat) (t t' : Int) (i' : Nat),
      wait_lt clock last fuel i t = some (t', i') → last ≤ t' := by
  intro fuel
  induction fuel with
  | zero =>
    intro i t t' i' h
    simp only [wait_lt] at h
    split_ifs at h with hlt
    injection h with h2
    injection h2 with ha hb
    omega
  | succ fuel ih =>
    intro i t t' i' h
    simp only [wait_lt] at h
    split_ifs at h with hlt
    · exact ih _ _ _ _ h
    · injection h with h2
      injection h2 with ha hb
      omega

theorem wait_le_gt (clock : Nat → Int) (last : Int) :
    ∀ (fuel i : Nat) (t t' : Int) (i' : Nat),
      wait_le clock last fuel i t = some (t', i') → last < t' := by
  intro fuel
  induction fuel with
  | zero =>
    intro i t t' i' h
    simp only [wait_le] at h
    split_ifs at h with hle
    injection h with h2
    injection h2 with ha hb
    omega
  | succ fuel ih =>
    intro i t t' i' h
    simp only [wait_le] at h
    split_ifs at h with hle
    · exact ih _ _ _ _ h
    · injection h with h2
      injection h2 with ha hb
      omega

theorem bulk_commit_spec (g : GenConfig) (st2 : GeneratorState) (i2 : Nat)
    (id : Nat) (st' : GeneratorState) (i' : Nat)
    (hs2 : st2.sequence ≤ g.layout.max_sequence)
    (h : bulk_commit g st2 i2 = some (id, st', i')) :
    st' = st2 ∧ in_range g st2 ∧ id = id_of_state g st2 := by
  simp only [bulk_commit] at h
  split_ifs at h with hov
  injection h with h2
  injection h2 with ha hb
  injection hb with hb hc
  exact ⟨hb.symm, by rw [in_range_iff]; exact ⟨by omega, by omega, hs2⟩, ha.symm⟩

theorem bulk_iter_tail_spec (g : GenConfig) (clock : Nat → Int) (fuel : Nat)
    (st : GeneratorState) (t1 : Int) (i1 : Nat) (id : Nat) (st' : GeneratorState)
    (i' : Nat) (hs : st.sequence ≤ g.layout.max_sequence)
    (hge : st.last_timestamp ≤ t1)
    (h : bulk_iter_tail g clock fuel st t1 i1 = some (id, st', i')) :
    key_lt st st' ∧ in_range g st' ∧ id = id_of_state g st' := by
  simp only [bulk_iter_tail] at h
  split_ifs at h with heq hseq
  · rcases hw2 : wait_le clock st.last_timestamp fuel i1 t1 with _ | ⟨t2, i2⟩
    · rw [hw2] at h; simp at h
    · rw [hw2] at h
      have hgt := wait_le_gt clock st.last_timestamp fuel i1 t1 t2 i2 hw2
      obtain ⟨hst', hr, hid⟩ := bulk_commit_spec g ⟨t2, 0⟩ i2 id st' i' (Nat.zero_le _) h
      subst hst'
      refine ⟨?_, hr, hid⟩
      rw [key_lt_iff]
      refine Or.inl ?_
      dsimp only
      omega
  · obtain ⟨hst', hr, hid⟩ := bulk_commit_spec g
      ⟨t1, (st.sequence + 1) &&& g.layout.max_sequence⟩ i1 id st' i'
      (next_seq_le g.layout st.sequence) h
    subst hst'
    refine ⟨?_, hr, hid⟩
    have hsucc := next_seq_eq_succ g.layout st.sequence hs hseq
    rw [key_lt_iff]
    refine Or.inr ⟨heq.symm, ?_⟩
    dsimp only
    omega
  · obtain ⟨hst', hr, hid⟩ := bulk_commit_spec g ⟨t1, 0⟩ i1 id st' i'
      (Nat.zero_le _) h
    subst hst'
    refine ⟨?_, hr, hid⟩
    rw [key_lt_iff]
    refine Or.inl ?_
    dsimp only
    omega

theorem bulk_iter_spec (g : GenConfig) (clock : Nat → Int) (fuel : Nat)
    (st : GeneratorState) (i : Nat) (id : Nat) (st' : GeneratorState) (i' : Nat)
    (hs : st.sequence ≤ g.layout.max_sequence)
    (h : bulk_iter g clock fuel st i = some (id, st', i')) :
    key_lt st st' ∧ in_range g st' ∧ id = id_of_state g st' := by
  simp only [bulk_iter] at h
  by_cases hb : clock i < st.last_timestamp
  · rw [if_pos hb] at h
    by_cases htol : st.last_timestamp - clock i ≤ g.tolerance_ms
    · rw [if_pos htol] at h
      rcases hw1 : wait_lt clock st.last_timestamp fuel (i + 1) (clock i) with _ | ⟨t1, i1⟩
      · rw [hw1] at h; simp at h
      · rw [hw1] at h
        exact bulk_iter_tail_spec g clock fuel st t1 i1 id st' i' hs
          (wait_lt_ge clock st.last_timestamp fuel (i + 1) (clock i) t1 i1 hw1) h
    · rw [if_neg htol] at h; simp at h
  · rw [if_neg hb] at h
    exact bulk_iter_tail_spec g clock fuel st (clock i) (i + 1) id st' i' hs
      (by omega) h

theorem next_id_bulk_spec (g : GenConfig) (clock : Nat → Int) (fuel : Nat)
    (hw : g.layout.timestamp_bits + g.layout.machine_id_bits + g.layout.sequence_bits ≤ 63)
    (hm : g.machine_id ≤ g.layout.max_machine_id) :
    ∀ (count : Nat) (st : GeneratorState) (i : Nat) (ids : List Nat)
      (st' : GeneratorState) (i' : Nat), st.sequence ≤ g.layout.max_sequence →
      next_id_bulk g clock fuel count st i = some (ids, st', i') →
      ids.length = count ∧ List.Pairwise (· < ·) ids ∧
        ∀ id ∈ ids, ∃ s', key_lt st s' ∧ in_range g s' ∧ id = id_of_state g s' := by
  intro count
  induction count with
  | zero =>
    intro st i ids st' i' hs h
    simp only [next_id_bulk] at h
    injection h with h2
    injection h2 with ha hb
    subst ha
    exact ⟨rfl, List.Pairwise.nil, by intro id hid; simp at hid⟩
  | succ count ih =>
    intro st i ids st' i' hs h
    simp only [next_id_bulk] at h
    rcases hit : bulk_iter g clock fuel st i with _ | ⟨id0, st1, i1⟩
    · simp only [hit] at h
      exact Option.noConfusion h
    · simp only [hit] at h
      rcases hrest : next_id_bulk g clock fuel count st1 i1 with _ | ⟨ids2, st2, i2⟩
      · simp only [hrest] at h
        exact Option.noConfusion h
      · simp only [hrest] at h
        injection h with h2
        injection h2 with ha hb
        subst ha
        obtain ⟨hk0, hr0, hid0⟩ := bulk_iter_spec g clock fuel st i id0 st1 i1 hs hit
        have hs1 : st1.sequence ≤ g.layout.max_sequence := by
          rw [in_range_iff] at hr0
          exact hr0.2.2
        obtain ⟨hlen, hpair, hbound⟩ := ih st1 i1 ids2 st2 i2 hs1 hrest
        refine ⟨by rw [List.length_cons, hlen], ?_, ?_⟩
        · rw [List.pairwise_cons]
          refine ⟨?_, hpair⟩
          intro id' hid'
          obtain ⟨s', hk', hr', hideq⟩ := hbound id' hid'
          rw [hid0, hideq]
          exact id_of_state_lt g hw hm st1 s' hr0 hr' hk'
        · intro id hid
          rcases List.mem_cons.mp hid with hhd | htl
          · exact ⟨st1, hk0, hr0, hhd ▸ hid0⟩
          · obtain ⟨s', hk', hr', hideq⟩ := hbound id htl
            exact ⟨s', key_lt_trans hk0 hk', hr', hideq⟩

theorem next_id_spec (g : GenConfig) (clock : Nat → Int) :
    ∀ (fuel i : Nat) (st : GeneratorState) (id : Nat) (st1 : GeneratorState) (i1 : Nat),
      st.sequence ≤ g.layout.max_sequence →
      next_id g clock fuel i st = some (id, st1, i1) →
      key_lt st st1 ∧ in_range g st1 ∧ id = id_of_state g st1 := by
  intro fuel
  induction fuel with
  | zero =>
    intro i st id st1 i1 hs h
    simp [next_id] at h
  | succ fuel ih =>
    intro i st id st1 i1 hs h
    simp only [next_id] at h
    rcases hp : try_next_id g st (clock i) with ⟨r, stx⟩
    rw [hp] at h
    obtain ⟨hmono, hseqx, hready⟩ := try_next_id_step g st (clock i) r stx hs hp
    rcases r with e | op
    · simp at h
    · rcases op with id0 | w
      · injection h with h2
        injection h2 with ha hb
        injection hb with hb hc
        subst hb
        obtain ⟨hk0, hr0, hid0⟩ := hready id0 rfl
        exact ⟨hk0, hr0, ha ▸ hid0⟩
      · obtain ⟨hk', hr', hid'⟩ := ih (i + 1) stx id st1 i1 hseqx h
        refine ⟨?_, hr', hid'⟩
        rcases hmono with he | hk0
        · rwa [he] at hk'
        · exact key_lt_trans hk0 hk'

theorem next_id_bulk_async_spec (g : GenConfig) (clock : Nat → Int) (fuel : Nat)
    (hw : g.layout.timestamp_bits + g.layout.machine_id_bits + g.layout.sequence_bits ≤ 63)
    (hm : g.machine_id ≤ g.layout.max_machine_id) :
    ∀ (count : Nat) (st : GeneratorState) (i : Nat) (ids : List Nat)
      (st' : GeneratorState) (i' : Nat), st.sequence ≤ g.layout.max_sequence →
      next_id_bulk_async g clock fuel count st i = some (ids, st', i') →
      ids.length = count ∧ List.Pairwise (· < ·) ids ∧
        ∀ id ∈ ids, ∃ s', key_lt st s' ∧ in_range g s' ∧ id = id_of_state g s' := by
  intro count
  induction count with
  | zero =>
    intro st i ids st' i' hs h
    simp only [next_id_bulk_async] at h
    injection h with h2
    injection h2 with ha hb
    subst ha
    exact ⟨rfl, List.Pairwise.nil, by intro id hid; simp at hid⟩
  | succ count ih =>
    intro st i ids st' i' hs h
    simp only [next_id_bulk_async] at h
    rcases hit : next_id g clock fuel i st with _ | ⟨id0, st1, i1⟩
    · simp only [hit] at h
      exact Option.noConfusion h
    · simp only [hit] at h
      rcases hrest : next_id_bulk_async g clock fuel count st1 i1 with _ | ⟨ids2, st2, i2⟩
      · simp only [hrest] at h
        exact Option.noConfusion h
      · simp only [hrest] at h
        injection h with h2
        injection h2 with ha hb
        subst ha
        obtain ⟨hk0, hr0, hid0⟩ := next_id_spec g clock fuel i st id0 st1 i1 hs hit
        have hs1 : st1.sequence ≤ g.layout.max_sequence := by
          rw [in_range_iff] at hr0
          exact hr0.2.2
        obtain ⟨hlen, hpair, hbound⟩ := ih st1 i1 ids2 st2 i2 hs1 hrest
        refine ⟨by rw [List.length_cons, hlen], ?_, ?_⟩
        · rw [List.pairwise_cons]
          refine ⟨?_, hpair⟩
          intro id' hid'
          obtain ⟨s', hk', hr', hideq⟩ := hbound id' hid'
          rw [hid0, hideq]
          exact id_of_state_lt g hw hm st1 s' hr0 hr' hk'
        · intro id hid
          rcases List.mem_cons.mp hid with hhd | htl
          · exact ⟨st1, hk0, hr0, hhd ▸ hid0⟩
          · obtain ⟨s', hk', hr', hideq⟩ := hbound id htl
            exact ⟨s', key_lt_trans hk0 hk', hr', hideq⟩

/-- C8: a completed batch call — blocking wrapper (one lock acquisition,
inlined loop) or cooperative wrapper (single-id path per element) —
returns exactly `count` ids, strictly increasing by raw value. -/
theorem bulk_count_and_ordering (g : GenConfig) (clock : Nat → Int) (st : GeneratorState)
    (hw : g.layout.timestamp_bits + g.layout.machine_id_bits + g.layout.sequence_bits ≤ 63)
    (hm : g.machine_id ≤ g.layout.max_machine_id)
    (hs : st.sequence ≤ g.layout.max_sequence) :
    (∀ (fuel count i : Nat) (ids : List Nat) (st' : GeneratorState) (i' : Nat),
      next_id_bulk g clock fuel count st i = some (ids, st', i') →
      ids.length = count ∧ List.Pairwise (· < ·) ids) ∧
    (∀ (fuel count i : Nat) (ids : List Nat) (st' : GeneratorState) (i' : Nat),
      next_id_bulk_async g clock fuel count st i = some (ids, st', i') →
      ids.length = count ∧ List.Pairwise (· < ·) ids) := by
  constructor
  · intro fuel count i ids st' i' h
    obtain ⟨hl, hp, _⟩ := next_id_bulk_spec g clock fuel hw hm count st i ids st' i' hs h
    exact ⟨hl, hp⟩
  · intro fuel count i ids st' i' h
    obtain ⟨hl, hp, _⟩ :=
      next_id_bulk_async_spec g clock fuel hw hm count st i ids st' i' hs h
    exact ⟨hl, hp⟩

/-- Witness for C8: both wrappers, three ids from a running clock. -/
theorem bulk_count_and_ordering_witness :
    (([4097, 4198400, 8392704] : List Nat).length = 3 ∧
      List.Pairwise (· < ·) ([4097, 4198400, 8392704] : List Nat)) ∧
    (([4097, 4198400, 8392704] : List Nat).length = 3 ∧
      List.Pairwise (· < ·) ([4097, 4198400, 8392704] : List Nat)) := by
  have thm := bulk_count_and_ordering ⟨⟨41, 10, 12⟩, 10, 1, 0⟩ (fun n => (n : Int)) ⟨0, 0⟩
    (by decide) (by decide) (by decide)
  exact ⟨thm.1 3 3 0 [4097, 4198400, 8392704] ⟨2, 0⟩ 3 rfl,
    thm.2 3 3 0 [4097, 4198400, 8392704] ⟨2, 0⟩ 3 rfl⟩

/-- C6: every Ready id has bit 63 clear and is the concatenation of the
timestamp-offset, machine-id and sequence fields; in the blocking bulk path
every produced id likewise stays below `2 ^ 63` with the configured machine
id in its machine-id field and a valid bit pattern. -/
theorem ready_id_bit_layout (g : GenConfig)
    (hw : g.layout.timestamp_bits + g.layout.machine_id_bits + g.layout.sequence_bits ≤ 63)
    (hm : g.machine_id ≤ g.layout.max_machine_id) :
    (∀ (st : GeneratorState) (t : Int) (id : Nat) (st' : GeneratorState),
      try_next_id g st t = (Except.ok (SnowflakeOperation.Ready id), st') →
      id < 2 ^ 63 ∧
      id = (t - g.epoch).toNat * 2 ^ g.layout.timestamp_shift +
        g.machine_id * 2 ^ g.layout.sequence_bits + st'.sequence ∧
      g.layout.timestamp id = (t - g.epoch).toNat ∧
      g.layout.machine_id id = g.machine_id ∧
      g.layout.sequence id = st'.sequence ∧
      g.layout.is_valid id = true) ∧
    (∀ (clock : Nat → Int) (fuel count : Nat) (st : GeneratorState) (i : Nat)
        (ids : List Nat) (st2 : GeneratorState) (i2 : Nat),
      st.sequence ≤ g.layout.max_sequence →
      next_id_bulk g clock fuel count st i = some (ids, st2, i2) →
      ∀ id ∈ ids, id < 2 ^ 63 ∧ g.layout.machine_id id = g.machine_id ∧
        g.layout.is_valid id = true) := by
  constructor
  · intro st t id st' hstep
    obtain ⟨hlast, _, hr, hid⟩ := try_next_id_ready g st t id st' hstep
    have hf := id_of_state_fields g hw hm st' hr
    rw [hid]
    refine ⟨hf.2.2.2.2.2, ?_, ?_, hf.2.1, hf.2.2.1, hf.2.2.2.1⟩
    · rw [hf.2.2.2.2.1, hlast]
    · rw [hf.1, hlast]
  · intro clock fuel count st i ids st2 i2 hs hbulk id hid
    obtain ⟨_, _, hbound⟩ :=
      next_id_bulk_spec g clock fuel hw hm count st i ids st2 i2 hs hbulk
    obtain ⟨s', _, hr', hideq⟩ := hbound id hid
    have hf := id_of_state_fields g hw hm s' hr'
    rw [hideq]
    exact ⟨hf.2.2.2.2.2, hf.2.1, hf.2.2.2.1⟩

/-- Witness for C6: the Ready id issued at reading 1 from a fresh state. -/
theorem ready_id_bit_layout_witness :
    (4198400 : Nat) < 2 ^ 63 ∧
    Layout.machine_id ⟨41, 10, 12⟩ 4198400 = 1 ∧
    Layout.is_valid ⟨41, 10, 12⟩ 4198400 = true := by
  have thm := (ready_id_bit_layout ⟨⟨41, 10, 12⟩, 10, 1, 0⟩ (by decide) (by decide)).1
    ⟨0, 0⟩ 1 4198400 ⟨1, 0⟩ rfl
  exact ⟨thm.1, thm.2.2.2.1, thm.2.2.2.2.2⟩

/-- C5 (divergence witness): `try_next_id` does return the typed
ClockMovedBackwards error, but the `next_id` retry loop unwraps it with
`expect` — a panic aborting the process, modelled `none`, not a typed
result — and the blocking `next_id_bulk` `panic!`s mid-batch, discarding
the id it had already produced (the one-element batch over the same clock
succeeds and shows that id). -/
theorem fatal_conditions_abort_process :
    (try_next_id ⟨⟨41, 10, 12⟩, 10, 1, 0⟩ ⟨1000, 0⟩ 0).1 =
      Except.error SnowflakeError.ClockMovedBackwards ∧
    next_id ⟨⟨41, 10, 12⟩, 10, 1, 0⟩ (fun _ => 0) 5 0 ⟨1000, 0⟩ = none ∧
    next_id_bulk ⟨⟨41, 10, 12⟩, 10, 1, 0⟩ (fun n => if n = 0 then 2000 else 0) 5 2
      ⟨1000, 0⟩ 0 = none ∧
    next_id_bulk ⟨⟨41, 10, 12⟩, 10, 1, 0⟩ (fun n => if n = 0 then 2000 else 0) 5 1
      ⟨1000, 0⟩ 0 = some ([8388612096], ⟨2000, 0⟩, 1) :=
  ⟨rfl, rfl, rfl, rfl⟩

/-! Decimal text round trip (C9, C10). -/

theorem digit_to_char_props (d : Nat) (hd : d < 10) :
    48 ≤ (digit_to_char d).toNat ∧ (digit_to_char d).toNat ≤ 57 := by
  interval_cases d <;> decide

theorem digit_val_digit_to_char (d : Nat) (hd : d < 10) :
    digit_val (digit_to_char d) = some d := by
  interval_cases d <;> decide

theorem digit_to_char_ne_sign (d : Nat) (hd : d < 10) :
    digit_to_char d ≠ '-' ∧ digit_to_char d ≠ '+' := by
  interval_cases d <;> decide

theorem digit_to_char_eq_zero_iff (d : Nat) (hd : d < 10) :
    digit_to_char d = '0' ↔ d = 0 := by
  interval_cases d <;> decide

theorem dec_digits_rev_lt_ten : ∀ (fuel n : Nat), ∀ d ∈ dec_digits_rev fuel n, d < 10 := by
  intro fuel
  induction fuel with
  | zero =>
    intro n d hd
    simp [dec_digits_rev] at hd
  | succ fuel ih =>
    intro n d hd
    simp only [dec_digits_rev] at hd
    split_ifs at hd with h0
    · simp at hd
    · rcases List.mem_cons.mp hd with h | h
      · have := Nat.mod_lt n (show 0 < 10 by norm_num)
        omega
      · exact ih _ _ h

theorem digits_value_dec_digits_rev : ∀ (fuel n : Nat), n ≤ fuel →
    digits_value (dec_digits_rev fuel n) = n := by
  intro fuel
  induction fuel with
  | zero =>
    intro n h
    have hz : n = 0 := by omega
    subst hz
    rfl
  | succ fuel ih =>
    intro n h
    simp only [dec_digits_rev]
    split_ifs with h0
    · simp [digits_value, h0]
    · simp only [digits_value]
      rw [ih (n / 10) (by omega)]
      omega

theorem dec_digits_rev_ne_nil (fuel n : Nat) (h0 : 0 < n) (hle : n ≤ fuel) :
    dec_digits_rev fuel n ≠ [] := by
  cases fuel with
  | zero => omega
  | succ fuel =>
    simp only [dec_digits_rev]
    rw [if_neg (by omega)]
    simp

theorem dec_digits_rev_getLast : ∀ (fuel n : Nat), 0 < n → n ≤ fuel →
    ∀ d, (dec_digits_rev fuel n).getLast? = some d → d ≠ 0 := by
  intro fuel
  induction fuel with
  | zero =>
    intro n h0 hle
    omega
  | succ fuel ih =>
    intro n h0 hle d hd
    simp only [dec_digits_rev] at hd
    rw [if_neg (by omega)] at hd
    rcases Nat.lt_or_ge n 10 with hsm | hbig
    · have hz : n / 10 = 0 := Nat.div_eq_of_lt hsm
      rw [hz] at hd
      have hnil : dec_digits_rev fuel 0 = [] := by
        cases fuel <;> simp [dec_digits_rev]
      rw [hnil] at hd
      simp only [List.getLast?_singleton, Option.some.injEq] at hd
      have : n % 10 = n := Nat.mod_eq_of_lt hsm
      omega
    · have hne := dec_digits_rev_ne_nil fuel (n / 10) (by omega) (by omega)
      rcases hr : dec_digits_rev fuel (n / 10) with _ | ⟨b, l⟩
      · exact absurd hr hne
      · rw [hr] at hd
        rw [List.getLast?_cons_cons] at hd
        rw [← hr] at hd
        exact ih (n / 10) (by omega) (by omega) d hd

theorem parse_fold_digits :
    ∀ (l : List Nat), (∀ d ∈ l, d < 10) → ∀ (a : Nat),
      List.foldl
        (fun acc c =>
          match acc, digit_val c with
          | some x, some d => some (x * 10 + d)
          | _, _ => none)
        (some a) (l.map digit_to_char) =
      some (List.foldl (fun x d => x * 10 + d) a l) := by
  intro l
  induction l with
  | nil =>
    intro hall a
    rfl
  | cons d l ih =>
    intro hall a
    simp only [List.map_cons, List.foldl_cons]
    rw [digit_val_digit_to_char d (hall d (by simp))]
    exact ih (fun x hx => hall x (by simp [hx])) (a * 10 + d)

theorem foldl_reverse_digits :
    ∀ (l : List Nat) (a : Nat),
      List.foldl (fun x d => x * 10 + d) a l.reverse =
        a * 10 ^ l.length + digits_value l := by
  intro l
  induction l with
  | nil =>
    intro a
    simp [digits_value]
  | cons d l ih =>
    intro a
    simp only [List.reverse_cons, List.foldl_append, List.foldl_cons, List.foldl_nil,
      List.length_cons, digits_value]
    rw [ih a]
    ring

theorem parse_nat_digits_display (n : Nat) (h0 : 0 < n) :
    parse_nat_digits ((dec_digits_rev n n).reverse.map digit_to_char) = some n := by
  have hne : dec_digits_rev n n ≠ [] := dec_digits_rev_ne_nil n n h0 (le_refl n)
  simp only [parse_nat_digits]
  rw [if_neg (by simp [List.isEmpty_iff, hne])]
  rw [parse_fold_digits (dec_digits_rev n n).reverse
      (fun d hd => dec_digits_rev_lt_ten n n d (List.mem_reverse.mp hd)) 0,
    foldl_reverse_digits, digits_value_dec_digits_rev n n (le_refl n)]
  simp

/-- C9: the textual form of a non-negative id is its decimal digits (no
sign, no leading zero), and parsing that string back succeeds and yields
the identical value. -/
theorem textual_round_trip (v : Int) (h0 : 0 ≤ v) (h1 : v ≤ 2 ^ 63 - 1) :
    (∀ c ∈ i64_display v, 48 ≤ c.toNat ∧ c.toNat ≤ 57) ∧
    i64_display v ≠ [] ∧
    (v ≠ 0 → (i64_display v).head? ≠ some '0') ∧
    from_str (i64_display v) = Except.ok v := by
  have hdisp : i64_display v = dec_string v.toNat := by
    rw [i64_display, if_neg (by omega)]
  by_cases hz : v = 0
  · subst hz
    exact ⟨by decide, by decide, fun hc => absurd rfl hc, rfl⟩
  · have hn0 : 0 < v.toNat := by omega
    have hds : dec_string v.toNat =
        (dec_digits_rev v.toNat v.toNat).reverse.map digit_to_char := by
      rw [dec_string, if_neg (by omega)]
    have hall : ∀ c ∈ i64_display v, 48 ≤ c.toNat ∧ c.toNat ≤ 57 := by
      intro c hc
      rw [hdisp, hds] at hc
      obtain ⟨d, hd, hcd⟩ := List.mem_map.mp hc
      have hd10 := dec_digits_rev_lt_ten v.toNat v.toNat d (List.mem_reverse.mp hd)
      rw [← hcd]
      exact digit_to_char_props d hd10
    refine ⟨hall, ?_, ?_, ?_⟩
    · rw [hdisp, hds]
      simp [dec_digits_rev_ne_nil v.toNat v.toNat hn0 (le_refl _)]
    · intro _
      rw [hdisp, hds]
      rw [List.head?_map, List.head?_reverse]
      intro hcon
      rcases hlast : (dec_digits_rev v.toNat v.toNat).getLast? with _ | d
      · rw [hlast] at hcon
        simp at hcon
      · rw [hlast] at hcon
        simp only [Option.map_some'] at hcon
        injection hcon with hcon
        have hdne := dec_digits_rev_getLast v.toNat v.toNat hn0 (le_refl _) d hlast
        have hd10 : d < 10 := by
          have hmem : d ∈ dec_digits_rev v.toNat v.toNat :=
            List.mem_of_mem_getLast? hlast
          exact dec_digits_rev_lt_ten v.toNat v.toNat d hmem
        exact hdne ((digit_to_char_eq_zero_iff d hd10).mp hcon)
    · rw [hdisp, hds]
      rcases hrv : (dec_digits_rev v.toNat v.toNat).reverse with _ | ⟨d0, rest⟩
      · exfalso
        apply dec_digits_rev_ne_nil v.toNat v.toNat hn0 (le_refl _)
        rwa [List.reverse_eq_nil_iff] at hrv
      · have hd010 : d0 < 10 := by
          refine dec_digits_rev_lt_ten v.toNat v.toNat d0 (List.mem_reverse.mp ?_)
          rw [hrv]
          simp
        simp only [List.map_cons]
        have hparse : parse_i64 (digit_to_char d0 :: rest.map digit_to_char) =
            some ((v.toNat : Nat) : Int) := by
          simp only [parse_i64]
          rw [if_neg (digit_to_char_ne_sign d0 hd010).1,
            if_neg (digit_to_char_ne_sign d0 hd010).2]
          have hback : digit_to_char d0 :: rest.map digit_to_char =
              ((dec_digits_rev v.toNat v.toNat).reverse).map digit_to_char := by
            rw [hrv]
            simp
          rw [hback, parse_nat_digits_display v.toNat hn0, Option.some_bind]
          rw [if_pos (by omega)]
        simp only [from_str, hparse]
        rw [if_neg (by omega)]
        have hcast : ((v.toNat : Nat) : Int) = v := by omega
        rw [hcast]

/-- Witness for C9 at the value 42. -/
theorem textual_round_trip_witness :
    from_str (i64_display 42) = Except.ok 42 :=
  (textual_round_trip 42 (by decide) (by decide)).2.2.2

/-- C10: decoding rejects negative values from both the string and the
integer forms, and rejects non-numeric strings with an error
distinguishable from the negative-value error; non-negative integers are
accepted. -/
theorem decode_negative_and_invalid (v w : Int) (hv : v < 0) (hw : 0 ≤ w) :
    visit_i64 v = Except.error "snowflake id cannot be negative" ∧
    visit_i64 w = Except.ok w ∧
    from_str ['-', '1'] =
      Except.error (SnowflakeError.InvalidId "Snowflake ID cannot be negative") ∧
    visit_str ['-', '1'] = Except.error "snowflake id cannot be negative" ∧
    from_str ['a', 'b'] = Except.error (SnowflakeError.InvalidId "Failed to parse") ∧
    visit_str ['a', 'b'] = Except.error "invalid snowflake id string" ∧
    SnowflakeError.InvalidId "Failed to parse" ≠
      SnowflakeError.InvalidId "Snowflake ID cannot be negative" ∧
    ("invalid snowflake id string" : String) ≠ "snowflake id cannot be negative" := by
  refine ⟨?_, ?_, rfl, rfl, rfl, rfl, by decide, by decide⟩
  · rw [visit_i64, if_pos hv]
  · rw [visit_i64, if_neg (by omega)]

/-- Witness for C10 at the integers -1 and 7. -/
theorem decode_negative_and_invalid_witness :
    visit_i64 (-1) = Except.error "snowflake id cannot be negative" ∧
    visit_i64 7 = Except.ok 7 :=
  ⟨(decode_negative_and_invalid (-1) 7 (by decide) (by decide)).1,
    (decode_negative_and_invalid (-1) 7 (by decide) (by decide)).2.1⟩

end SnowflakeSpec
